import Mathlib

/-!
Verification of the detection-and-sanitization pipeline of a screenshot-to-LaTeX
tool.  The program captures a screen region, runs OCR on it, classifies the
extracted text as LaTeX or plain text, sanitizes the markup and renders it.

The embedding below models the text-processing core over `List Char`:

* `looks_like_latex` - the notation classifier.  The Python source evaluates
  ten regular expressions lazily with any().  Three of the patterns are
  rejected by the Python regex engine, so the embedding returns an
  `Except String Bool`: evaluating an invalid pattern raises.
* `sanitize_latex` - the markup sanitizer, a pipeline of six re.sub passes.
  Every regex the sanitizer uses is of one of four simple shapes, modelled by
  the matchers below together with `reSub`, which mirrors how re.sub scans a
  subject string left to right, replacing non-overlapping matches.
* `renderDocument` - the fragment wrapper of the equation editor.
* `mainRun` and `mmMainRun` - state-machine models of the two pipeline entry
  points, tracking the captured screenshot file, the clipboard and the emitted
  events for each combination of collaborator outcomes.
-/

/-- Convert a string literal to the character list the model works on. -/
def S (s : String) : List Char := s.data

/-- Whitespace class of the regex shorthand backslash-s and of str.strip.
The two sets coincide in Python: tab through carriage return, the four
information separators, space, next line, no-break space, ogham space mark,
the en-quad through hair-space block, line and paragraph separators, narrow
no-break space, medium mathematical space and ideographic space. -/
def isWs (c : Char) : Bool :=
  c = ' ' || c = '\t' || c = '\n' || c = '\x0b' || c = '\x0c' || c = '\r'
    || ('\x1c' ≤ c && c ≤ '\x1f') || c = '\x85' || c = '\xa0' || c = '\u1680'
    || ('\u2000' ≤ c && c ≤ '\u200a') || c = '\u2028' || c = '\u2029'
    || c = '\u202f' || c = '\u205f' || c = '\u3000'

/-- Index of the first occurrence of the literal pattern p in s, if any. -/
def findOcc (p : List Char) : List Char → Option Nat
  | [] => if p.isEmpty then some 0 else none
  | c :: rest =>
      if p.isPrefixOf (c :: rest) then some 0 else (findOcc p rest).map (· + 1)

/-- Does the literal pattern p occur anywhere in the subject? -/
def hasOcc (p : List Char) : List Char → Bool
  | [] => p.isEmpty
  | c :: rest => p.isPrefixOf (c :: rest) || hasOcc p rest

/-- Model of re.sub(pattern, repl, text) for the regex shapes the sanitizer
uses.  The matcher m reports the length of the (unique, leftmost-longest as
appropriate) match at the current position, or none.  The scan moves left to
right; after a match of length n the next n characters are consumed (the
skip argument) and scanning resumes after them, so replacements are never
rescanned and matches never overlap, exactly as in re.sub. -/
def reSub (m : List Char → Option Nat) (r : List Char) : List Char → Nat → List Char
  | [], _ => []
  | _ :: rest, skip + 1 => reSub m r rest skip
  | c :: rest, 0 =>
      match m (c :: rest) with
      | some n => r ++ reSub m r rest (n - 1)
      | none => c :: reSub m r rest 0

/-- Model of len(re.findall(pattern, text)): the number of non-overlapping
matches found by the same left-to-right scan as `reSub`. -/
def reCount (m : List Char → Option Nat) : List Char → Nat → Nat
  | [], _ => 0
  | _ :: rest, skip + 1 => reCount m rest skip
  | c :: rest, 0 =>
      match m (c :: rest) with
      | some n => 1 + reCount m rest (n - 1)
      | none => reCount m rest 0

/-- Matcher for a literal pattern: matches iff p starts here. -/
def matchLit (p : List Char) (l : List Char) : Option Nat :=
  if p.isPrefixOf l then some p.length else none

/-- Matcher for an alternation of two literal patterns, first alternative
preferred, as in the regex begin-marker pipe end-marker. -/
def matchAlt (p q : List Char) (l : List Char) : Option Nat :=
  match matchLit p l with
  | some n => some n
  | none => matchLit q l

/-- Number of non-overlapping occurrences of the literal pattern p. -/
def countOcc (p : List Char) (s : List Char) : Nat :=
  reCount (matchLit p) s 0

/-- The document-begin marker. -/
def BEGINDOC : List Char := S "\\begin\x7bdocument\x7d"

/-- The document-end marker. -/
def ENDDOC : List Char := S "\\end\x7bdocument\x7d"

/-- The document-class token. -/
def DOCCLASS : List Char := S "\\documentclass"

/-- Begin marker of a named environment. -/
def beginMarker (env : List Char) : List Char := S "\\begin\x7b" ++ env ++ S "\x7d"

/-- End marker of a named environment. -/
def endMarker (env : List Char) : List Char := S "\\end\x7b" ++ env ++ S "\x7d"

/-- Begin marker of the aligned sub-environment. -/
def BEGINALIGNED : List Char := beginMarker (S "aligned")

/-- End marker of the aligned sub-environment. -/
def ENDALIGNED : List Char := endMarker (S "aligned")

/-- Begin marker of the align environment. -/
def BEGINALIGN : List Char := beginMarker (S "align")

/-- End marker of the align environment. -/
def ENDALIGN : List Char := endMarker (S "align")

/-- Matcher for the pattern begin-document dot-star-lazy end-document with
re.DOTALL: at a document-begin marker, the match extends to the end of the
first document-end marker after it (lazy star, any characters in between);
if no end marker follows there is no match here. -/
def matchDocBody (l : List Char) : Option Nat :=
  if BEGINDOC.isPrefixOf l then
    (findOcc ENDDOC (l.drop BEGINDOC.length)).map
      (fun j => BEGINDOC.length + j + ENDDOC.length)
  else none

/-- Matcher for the pattern documentclass dot-star-lazy newline without
re.DOTALL: at a document-class token, the match extends through the first
newline after it (the lazy star cannot cross a newline); with no later
newline there is no match here. -/
def matchClassLine (l : List Char) : Option Nat :=
  if DOCCLASS.isPrefixOf l then
    (findOcc ['\n'] (l.drop DOCCLASS.length)).map
      (fun j => DOCCLASS.length + j + 1)
  else none

/-- Matcher for the whitespace-run pattern: a maximal run of whitespace. -/
def matchWsRun (l : List Char) : Option Nat :=
  match l with
  | [] => none
  | c :: _ => if isWs c then some (l.takeWhile isWs).length else none

/-- Remove the trailing whitespace run, the right half of str.strip. -/
def stripTrailing : List Char → List Char
  | [] => []
  | c :: rest =>
      let r := stripTrailing rest
      if r = [] && isWs c then [] else c :: r

/-- First sanitizer pass: strip every document body, markers included. -/
def stripDocumentBody (s : List Char) : List Char := reSub matchDocBody [] s 0

/-- Second sanitizer pass: strip every newline-terminated document-class line. -/
def stripClassLines (s : List Char) : List Char := reSub matchClassLine [] s 0

/-- Third sanitizer pass: strip stray document-begin and document-end markers,
in two successive substitutions as in the source. -/
def stripDocMarkers (s : List Char) : List Char :=
  reSub (matchLit ENDDOC) [] (reSub (matchLit BEGINDOC) [] s 0) 0

/-- Fourth sanitizer pass: rewrite aligned markers to align markers,
begin and end independently. -/
def rewriteAligned (s : List Char) : List Char :=
  reSub (matchLit ENDALIGNED) ENDALIGN (reSub (matchLit BEGINALIGNED) BEGINALIGN s 0) 0

/-- The fixed checklist of environment kinds the sanitizer balances, in the
order the source iterates over them. -/
def ENV_NAMES : List (List Char) :=
  [S "align", S "equation", S "matrix", S "bmatrix", S "cases"]

/-- One iteration of the balancing loop: count begin and end markers of the
kind; on a mismatch remove all of them (alternation regex), else no change. -/
def envStep (env : List Char) (s : List Char) : List Char :=
  if countOcc (beginMarker env) s = countOcc (endMarker env) s then s
  else reSub (matchAlt (beginMarker env) (endMarker env)) [] s 0

/-- Fifth sanitizer pass: the balancing loop over the fixed checklist. -/
def balanceEnvironments (s : List Char) : List Char :=
  ENV_NAMES.foldl (fun t e => envStep e t) s

/-- Sixth sanitizer pass, first half: collapse every whitespace run to one
space. -/
def collapseWs (s : List Char) : List Char := reSub matchWsRun [' '] s 0

/-- Sixth sanitizer pass, second half: str.strip. -/
def stripWs (s : List Char) : List Char := stripTrailing (s.dropWhile isWs)

/-- The sanitizer text just before the balancing loop runs. -/
def preBalance (s : List Char) : List Char :=
  rewriteAligned (stripDocMarkers (stripClassLines (stripDocumentBody s)))

/-- The markup sanitizer sanitize_latex of the source: six passes in order. -/
def sanitize_latex (s : List Char) : List Char :=
  stripWs (collapseWs (balanceEnvironments (preBalance s)))

/-- Is c an ASCII letter, the character class a-zA-Z of the command patterns. -/
def isAsciiLetter (c : Char) : Bool :=
  ('a' ≤ c && c ≤ 'z') || ('A' ≤ c && c ≤ 'Z')

/-- Search: does the positional matcher m succeed at some position of the
subject (including the empty suffix at the end), as re.search does. -/
def searchBy (m : List Char → Bool) : List Char → Bool
  | [] => m []
  | c :: rest => m (c :: rest) || searchBy m rest

/-- After the letters already read, does a (possibly empty) run of further
letters followed by the terminator t start here? -/
def lettersThen (t : Char) : List Char → Bool
  | [] => false
  | c :: rest => if c = t then true else if isAsciiLetter c then lettersThen t rest else false

/-- Positional matcher for backslash, one or more letters, then t.  With t an
opening brace this is the command-with-braces pattern; with t an opening
square bracket, the command-with-optional-argument pattern. -/
def matchCmd (t : Char) : List Char → Bool
  | '\\' :: c :: rest => isAsciiLetter c && lettersThen t rest
  | _ => false

/-- Scan for a closing double dollar on the current line: dot matches
anything but a newline. -/
def closeDD : List Char → Bool
  | '$' :: '$' :: _ => true
  | c :: rest => if c = '\n' then false else closeDD rest
  | [] => false

/-- Positional matcher for the display-math pattern double dollar,
dot-star, double dollar. -/
def matchDD : List Char → Bool
  | '$' :: '$' :: rest => closeDD rest
  | _ => false

/-- Scan for a closing single dollar on the current line. -/
def closeD : List Char → Bool
  | '$' :: _ => true
  | c :: rest => if c = '\n' then false else closeD rest
  | [] => false

/-- Positional matcher for the inline-math pattern dollar, dot-star, dollar. -/
def matchD : List Char → Bool
  | '$' :: rest => closeD rest
  | _ => false

/-- Scan for a closing brace on the current line. -/
def closeBrace : List Char → Bool
  | '\x7d' :: _ => true
  | c :: rest => if c = '\n' then false else closeBrace rest
  | [] => false

/-- Positional matcher for backslash-begin-open-brace, dot-star, close-brace. -/
def matchBeginEnv (l : List Char) : Bool :=
  (S "\\begin\x7b").isPrefixOf l && closeBrace (l.drop 7)

/-- Positional matcher for backslash-end-open-brace, dot-star, close-brace. -/
def matchEndEnv (l : List Char) : Bool :=
  (S "\\end\x7b").isPrefixOf l && closeBrace (l.drop 5)

/-- The ten entries of the latex_patterns list of the source, in order. -/
inductive LatexPattern
  | cmdBrace | cmdBracket | displayDollars | inlineDollar | beginEnv | endEnv
  | bsOpenBracket | bsCloseBracket | bsOpenParen | bsCloseParen
deriving DecidableEq

/-- The pattern list of looks_like_latex, in source order. -/
def latex_patterns : List LatexPattern :=
  [.cmdBrace, .cmdBracket, .displayDollars, .inlineDollar, .beginEnv, .endEnv,
   .bsOpenBracket, .bsCloseBracket, .bsOpenParen, .bsCloseParen]

/-- Does the Python regex engine accept the pattern?  Three entries are
rejected: in the seventh pattern the unescaped opening square bracket begins
an unterminated character set, and in the ninth and tenth the unescaped
parentheses are an unterminated group and an unbalanced closing parenthesis.
The eighth pattern is fine because a lone closing square bracket is literal. -/
def patternValid : LatexPattern → Bool
  | .bsOpenBracket => false
  | .bsOpenParen => false
  | .bsCloseParen => false
  | _ => true

/-- Semantics of re.search for the seven accepted patterns; the value on the
rejected patterns is irrelevant since searching them raises instead. -/
def patternFound : LatexPattern → List Char → Bool
  | .cmdBrace, s => searchBy (matchCmd '\x7b') s
  | .cmdBracket, s => searchBy (matchCmd '[') s
  | .displayDollars, s => searchBy matchDD s
  | .inlineDollar, s => searchBy matchD s
  | .beginEnv, s => searchBy matchBeginEnv s
  | .endEnv, s => searchBy matchEndEnv s
  | .bsCloseBracket, s => hasOcc (S "\\]") s
  | _, _ => false

/-- The diagnostic of the regex-compilation failure raised on the first
rejected pattern the scan reaches. -/
def regexErrorMsg : String := "re.error: unterminated character set"

/-- One re.search call of the classifier: raises on an invalid pattern. -/
def searchPattern (p : LatexPattern) (s : List Char) : Except String Bool :=
  if patternValid p then .ok (patternFound p s) else .error regexErrorMsg

/-- The lazy any() over the pattern list: stops at the first pattern that
matches, propagates the exception of the first invalid pattern it reaches. -/
def anyPattern : List LatexPattern → List Char → Except String Bool
  | [], _ => .ok false
  | p :: ps, s =>
      match searchPattern p s with
      | .error e => .error e
      | .ok true => .ok true
      | .ok false => anyPattern ps s

/-- The notation classifier looks_like_latex of the source. -/
def looks_like_latex (s : List Char) : Except String Bool :=
  anyPattern latex_patterns s

/-- The fragment openers the equation editor recognizes before wrapping:
dollar, display-math bracket opener, environment begin marker. -/
def mathOpeners : List (List Char) := [S "$", S "\\[", S "\\begin\x7b"]

/-- Does the fragment already start with a recognized math-mode opener? -/
def startsWithOpener (f : List Char) : Bool :=
  mathOpeners.any (fun p => p.isPrefixOf f)

/-- Wrap the fragment in a single inline math delimiter pair unless it
already starts with a math-mode opener. -/
def wrapFragment (f : List Char) : List Char :=
  if startsWithOpener f then f else S "$" ++ f ++ S "$"

/-- The constant document prefix of the editor render: preamble plus the
document-begin marker, exactly the raw string of the source. -/
def texPreamble : List Char :=
  S "\n\\documentclass[preview,border=10pt]\x7bstandalone\x7d\n\\usepackage\x7bamsmath\x7d\n\\usepackage\x7bamsfonts\x7d\n\\usepackage\x7bamssymb\x7d\n\\usepackage\x7bcolor\x7d\n\\begin\x7bdocument\x7d\n"

/-- The constant document suffix: the document-end marker. -/
def texSuffix : List Char := S "\n\\end\x7bdocument\x7d\n"

/-- The complete renderable document the editor hands to pdflatex. -/
def renderDocument (f : List Char) : List Char :=
  texPreamble ++ wrapFragment f ++ texSuffix

/-- Outcome of the screen-capture collaborator in capture_screen.  Opening
the temporary file for the flameshot stdout creates it on disk before the
tool runs, so in the emptyCapture and toolError outcomes the file exists
even though capture_screen returns no path. -/
inductive CaptureOutcome
  | goodCapture
  | emptyCapture
  | toolError
  | openError
deriving DecidableEq

/-- Does the outcome leave the temporary file on disk right after
capture_screen? -/
def captureFileCreated : CaptureOutcome → Bool
  | .openError => false
  | _ => true

/-- Does capture_screen return a path for this outcome? -/
def captureReturnsPath : CaptureOutcome → Bool
  | .goodCapture => true
  | _ => false

/-- Outcome of a best-effort sink call through subprocess.run. -/
inductive SinkOutcome
  | okRun
  | calledError
  | otherError
deriving DecidableEq

/-- Collaborator outcomes for one run of the editor entry point. -/
structure AppEnv where
  apiKeySet : Bool
  capture : CaptureOutcome
  ocrText : List Char
  xclipLatexOk : Bool
  xclipPlain : SinkOutcome
  editorResult : Option Nat

/-- Observable final state of one run of the editor entry point. -/
structure RunResult where
  screenshotOnDisk : Bool
  clipboard : Option (List Char)
  renderedArtifact : Option Nat
  exitCode : Nat
deriving DecidableEq

/-- The sentinel the OCR stage returns when the image held no text. -/
def NOTEXT : List Char := S "No text found in image"

/-- State machine of main() of the editor entry point.  The whole body after
a successful capture sits in a try block whose finally clause unlinks the
screenshot, so every path out of it - normal return, sys.exit, or a caught
exception - ends with the file deleted.  When capture fails, main exits
before the try block and never deletes the file the capture attempt may have
created. -/
def mainRun (env : AppEnv) : RunResult :=
  if env.apiKeySet = false then
    { screenshotOnDisk := false, clipboard := none, renderedArtifact := none, exitCode := 1 }
  else if captureReturnsPath env.capture = false then
    { screenshotOnDisk := captureFileCreated env.capture, clipboard := none,
      renderedArtifact := none, exitCode := 1 }
  else if env.ocrText = [] || env.ocrText = NOTEXT then
    { screenshotOnDisk := false, clipboard := none, renderedArtifact := none, exitCode := 1 }
  else
    match looks_like_latex env.ocrText with
    | .error _ =>
        { screenshotOnDisk := false, clipboard := none, renderedArtifact := none, exitCode := 0 }
    | .ok true =>
        { screenshotOnDisk := false,
          clipboard := if env.xclipLatexOk then some env.ocrText else none,
          renderedArtifact := env.editorResult, exitCode := 0 }
    | .ok false =>
        { screenshotOnDisk := false,
          clipboard := if env.xclipPlain = SinkOutcome.okRun then some env.ocrText else none,
          renderedArtifact := none, exitCode := 0 }

/-- Events of one run of the viewer entry point, in emission order. -/
inductive MmEvent
  | renderAttempt (text : List Char)
  | viewerOpen (path : Nat)
  | clipboardCopy (text : List Char)
  | fileUnlink
deriving DecidableEq

/-- Collaborator outcomes for one run of the viewer entry point. -/
structure MmEnv where
  apiKeySet : Bool
  captureOk : Bool
  ocrText : List Char
  renderResult : Option Nat
  xdgOutcome : SinkOutcome
  xclipOutcome : SinkOutcome

/-- Observable trace of one run of the viewer entry point. -/
structure MmResult where
  events : List MmEvent
  crashed : Bool
deriving DecidableEq

/-- Events and crash flag of the latex detection block of the viewer entry
point: when the text is nonempty and not the sentinel, the classifier runs;
a classifier exception crashes the block; on a true classification
render_latex is attempted (it catches its own exceptions), and on render
success the viewer is opened, where only an unexpected viewer error
crashes. -/
def mmLatexPart (env : MmEnv) : List MmEvent × Bool :=
  if env.ocrText = [] || env.ocrText = NOTEXT then ([], false)
  else
    match looks_like_latex env.ocrText with
    | .error _ => ([], true)
    | .ok false => ([], false)
    | .ok true =>
        match env.renderResult with
        | none => ([MmEvent.renderAttempt env.ocrText], false)
        | some p =>
            if env.xdgOutcome = SinkOutcome.otherError then
              ([MmEvent.renderAttempt env.ocrText, MmEvent.viewerOpen p], true)
            else
              ([MmEvent.renderAttempt env.ocrText, MmEvent.viewerOpen p], false)

/-- Events and crash flag of the clipboard block of the viewer entry point:
runs whenever the text is nonempty and not the sentinel, whatever rendering
did; a called-process error is caught, only an unexpected error crashes. -/
def mmCopyPart (env : MmEnv) : List MmEvent × Bool :=
  if env.ocrText = [] || env.ocrText = NOTEXT then ([], false)
  else if env.xclipOutcome = SinkOutcome.otherError then
    ([MmEvent.clipboardCopy env.ocrText], true)
  else
    ([MmEvent.clipboardCopy env.ocrText], false)

/-- State machine of main() of the viewer entry point.  After a successful
capture the body runs in a try block with a finally clause that unlinks the
screenshot, so the unlink event closes every trace; a crash in the latex
block skips the clipboard block. -/
def mmMainRun (env : MmEnv) : MmResult :=
  if env.apiKeySet = false then { events := [], crashed := false }
  else if env.captureOk = false then { events := [], crashed := false }
  else if (mmLatexPart env).2 then
    { events := (mmLatexPart env).1 ++ [MmEvent.fileUnlink], crashed := true }
  else
    { events := (mmLatexPart env).1 ++ (mmCopyPart env).1 ++ [MmEvent.fileUnlink],
      crashed := (mmCopyPart env).2 }

/-- A matcher that can only succeed at a backslash: this holds for every
matcher of the sanitizer, since each of its regexes starts with a literal
backslash. -/
def BackslashAnchored (m : List Char → Option Nat) : Prop :=
  ∀ t n, m t = some n → ∃ u, t = '\\' :: u

/-- Well-spaced text: every whitespace character is a plain space and no two
whitespace characters are adjacent.  The output of the whitespace collapse
satisfies this, and such text is a fixed point of the collapse. -/
def wsOk : List Char → Bool
  | [] => true
  | [c] => !isWs c || c = ' '
  | c :: d :: rest => (!isWs c || (c = ' ' && !isWs d)) && wsOk (d :: rest)

/-- A scaffolded document: a class declaration line, then lead-in text, a
document body between begin and end markers, and trailing text. -/
def scaffolded (d p m q : List Char) : List Char :=
  DOCCLASS ++ d ++ '\n' :: (p ++ (BEGINDOC ++ (m ++ (ENDDOC ++ q))))

/-- Run environment where flameshot fails: the temporary file was already
created by opening it for the stdout redirection, and capture_screen
returns no path. -/
def envC8bad : AppEnv :=
  { apiKeySet := true, capture := .toolError, ocrText := [],
    xclipLatexOk := true, xclipPlain := .okRun, editorResult := none }

/-- Run environment of a fully successful editor run. -/
def envC8good : AppEnv :=
  { apiKeySet := true, capture := .goodCapture, ocrText := S "$x$",
    xclipLatexOk := true, xclipPlain := .okRun, editorResult := some 1 }

/-- Run environment of a viewer run where classification succeeds but the
external renderer fails. -/
def envC9 : MmEnv :=
  { apiKeySet := true, captureOk := true, ocrText := S "$x$",
    renderResult := none, xdgOutcome := .okRun, xclipOutcome := .okRun }


theorem isPre_cons (a b : Char) (p t : List Char) :
    (a :: p).isPrefixOf (b :: t) = (a == b && p.isPrefixOf t) := rfl

theorem isPre_iff (p l : List Char) : p.isPrefixOf l = true ↔ p <+: l :=
  List.isPrefixOf_iff_prefix

theorem isPre_self_append (p u : List Char) : p.isPrefixOf (p ++ u) = true :=
  (isPre_iff p (p ++ u)).mpr (List.prefix_append p u)

theorem reSub_skip_append (m : List Char → Option Nat) (r : List Char)
    (rest : List Char) : ∀ x : List Char, reSub m r (x ++ rest) x.length = reSub m r rest 0 := by
  intro x
  induction x with
  | nil => rfl
  | cons c x ih => exact ih

theorem reCount_skip_append (m : List Char → Option Nat)
    (rest : List Char) : ∀ x : List Char, reCount m (x ++ rest) x.length = reCount m rest 0 := by
  intro x
  induction x with
  | nil => rfl
  | cons c x ih => exact ih

theorem reSub_id_of_no_match (m : List Char → Option Nat) (r : List Char) :
    ∀ l : List Char, (∀ t, t <:+ l → m t = none) → reSub m r l 0 = l := by
  intro l
  induction l with
  | nil => intro _; rfl
  | cons c rest ih =>
      intro h
      have hc : m (c :: rest) = none := h _ (List.suffix_refl _)
      show (match m (c :: rest) with
            | some n => r ++ reSub m r rest (n - 1)
            | none => c :: reSub m r rest 0) = c :: rest
      rw [hc]
      exact congrArg (c :: ·) (ih fun t ht => h t (ht.trans (List.suffix_cons c rest)))

theorem reCount_zero_of_no_match (m : List Char → Option Nat) :
    ∀ l : List Char, (∀ t, t <:+ l → m t = none) → reCount m l 0 = 0 := by
  intro l
  induction l with
  | nil => intro _; rfl
  | cons c rest ih =>
      intro h
      have hc : m (c :: rest) = none := h _ (List.suffix_refl _)
      show (match m (c :: rest) with
            | some n => 1 + reCount m rest (n - 1)
            | none => reCount m rest 0) = 0
      rw [hc]
      exact ih fun t ht => h t (ht.trans (List.suffix_cons c rest))

theorem reSub_bsfree_append (m : List Char → Option Nat) (r : List Char)
    (hm : BackslashAnchored m) (rest : List Char) :
    ∀ a : List Char, (∀ c ∈ a, c ≠ '\\') →
      reSub m r (a ++ rest) 0 = a ++ reSub m r rest 0 := by
  intro a
  induction a with
  | nil => intro _; rfl
  | cons c a ih =>
      intro h
      have hc : m (c :: (a ++ rest)) = none := by
        cases hmc : m (c :: (a ++ rest)) with
        | none => rfl
        | some n =>
            obtain ⟨u, hu⟩ := hm _ _ hmc
            exact absurd (List.cons.inj hu).1 (h c (List.mem_cons_self c a))
      show (match m (c :: (a ++ rest)) with
            | some n => r ++ reSub m r (a ++ rest) (n - 1)
            | none => c :: reSub m r (a ++ rest) 0) = c :: (a ++ reSub m r rest 0)
      rw [hc]
      exact congrArg (c :: ·) (ih fun d hd => h d (List.mem_cons_of_mem c hd))

theorem reSub_bsfree_id (m : List Char → Option Nat) (r : List Char)
    (hm : BackslashAnchored m) (l : List Char) (h : ∀ c ∈ l, c ≠ '\\') :
    reSub m r l 0 = l := by
  have h0 : reSub m r [] 0 = ([] : List Char) := rfl
  simpa [h0] using reSub_bsfree_append m r hm [] l h

theorem reSub_match_head (m : List Char → Option Nat) (r : List Char)
    (x after : List Char) (hx : x ≠ [])
    (hmx : m (x ++ after) = some x.length) :
    reSub m r (x ++ after) 0 = r ++ reSub m r after 0 := by
  cases x with
  | nil => exact absurd rfl hx
  | cons c x =>
      show (match m (c :: (x ++ after)) with
            | some n => r ++ reSub m r (x ++ after) (n - 1)
            | none => c :: reSub m r (x ++ after) 0) = r ++ reSub m r after 0
      rw [show m (c :: (x ++ after)) = some (x.length + 1) from hmx]
      simp [reSub_skip_append]

theorem hasOcc_isPre (p : List Char) :
    ∀ l : List Char, hasOcc p l = false → ∀ t, t <:+ l → p.isPrefixOf t = false := by
  intro l
  induction l with
  | nil =>
      intro h t ht
      have ht0 : t = [] := List.suffix_nil.mp ht
      subst ht0
      cases p with
      | nil => simp [hasOcc] at h
      | cons a p => rfl
  | cons c rest ih =>
      intro h t ht
      have hor : (p.isPrefixOf (c :: rest) || hasOcc p rest) = false := h
      have h1 := (Bool.or_eq_false_iff.mp hor).1
      have h2 := (Bool.or_eq_false_iff.mp hor).2
      rcases List.suffix_cons_iff.mp ht with h3 | h3
      · rw [h3]; exact h1
      · exact ih h2 t h3

theorem beginMarker_cons (env : List Char) :
    beginMarker env = '\\' :: (S "begin\x7b" ++ env ++ S "\x7d") := rfl

theorem endMarker_cons (env : List Char) :
    endMarker env = '\\' :: (S "end\x7b" ++ env ++ S "\x7d") := rfl

theorem head_bs_of_isPre (p : List Char) :
    ∀ t : List Char, ('\\' :: p).isPrefixOf t = true → ∃ u, t = '\\' :: u := by
  intro t h
  cases t with
  | nil => exact absurd h (by simp [List.isPrefixOf])
  | cons b u =>
      rw [isPre_cons] at h
      have hb : '\\' = b := by
        have := (Bool.and_eq_true _ _).mp h
        exact eq_of_beq this.1
      exact ⟨u, by rw [← hb]⟩

theorem anchored_matchLit_bs (p : List Char) : BackslashAnchored (matchLit ('\\' :: p)) := by
  intro t n h
  unfold matchLit at h
  by_cases hp : ('\\' :: p).isPrefixOf t = true
  · exact head_bs_of_isPre p t hp
  · rw [if_neg hp] at h; exact absurd h (by simp)

theorem anchored_matchAlt (p q : List Char) (hp : BackslashAnchored (matchLit p))
    (hq : BackslashAnchored (matchLit q)) : BackslashAnchored (matchAlt p q) := by
  intro t n h
  unfold matchAlt at h
  cases hm : matchLit p t with
  | some k => rw [hm] at h; exact hp t k hm
  | none => rw [hm] at h; exact hq t n h

theorem anchored_matchDocBody : BackslashAnchored matchDocBody := by
  intro t n h
  unfold matchDocBody at h
  by_cases hp : BEGINDOC.isPrefixOf t = true
  · exact head_bs_of_isPre _ t hp
  · rw [if_neg hp] at h; exact absurd h (by simp)

theorem anchored_matchClassLine : BackslashAnchored matchClassLine := by
  intro t n h
  unfold matchClassLine at h
  by_cases hp : DOCCLASS.isPrefixOf t = true
  · exact head_bs_of_isPre _ t hp
  · rw [if_neg hp] at h; exact absurd h (by simp)

theorem hasOcc_false_of_bsfree (p : List Char) :
    ∀ l : List Char, (∀ c ∈ l, c ≠ '\\') → hasOcc ('\\' :: p) l = false := by
  intro l
  induction l with
  | nil => intro _; rfl
  | cons c rest ih =>
      intro h
      have hc : ('\\' == c) = false :=
        beq_eq_false_iff_ne.mpr fun he => h c (List.mem_cons_self c rest) he.symm
      show (('\\' :: p).isPrefixOf (c :: rest) || hasOcc ('\\' :: p) rest) = false
      rw [isPre_cons, hc, Bool.false_and, Bool.false_or]
      exact ih fun d hd => h d (List.mem_cons_of_mem c hd)

theorem findOcc_single_none (a : Char) :
    ∀ l : List Char, a ∉ l → findOcc [a] l = none := by
  intro l
  induction l with
  | nil => intro _; rfl
  | cons c rest ih =>
      intro h
      have hc : (a == c) = false :=
        beq_eq_false_iff_ne.mpr fun he => h (he ▸ List.mem_cons_self c rest)
      show (if [a].isPrefixOf (c :: rest) then some 0
            else (findOcc [a] rest).map (· + 1)) = none
      rw [isPre_cons, hc]
      simp [ih fun hm => h (List.mem_cons_of_mem c hm)]

theorem matchLit_none (p t : List Char) (h : p.isPrefixOf t = false) :
    matchLit p t = none := by
  unfold matchLit
  rw [h]
  rfl

theorem reSubLit_id (p r : List Char) (s : List Char) (h : hasOcc p s = false) :
    reSub (matchLit p) r s 0 = s :=
  reSub_id_of_no_match _ r s fun t ht => matchLit_none p t (hasOcc_isPre p s h t ht)

theorem countOcc_zero_of_no (p s : List Char) (h : hasOcc p s = false) :
    countOcc p s = 0 :=
  reCount_zero_of_no_match _ s fun t ht => matchLit_none p t (hasOcc_isPre p s h t ht)

theorem stripDocumentBody_id (s : List Char) (h : hasOcc BEGINDOC s = false) :
    stripDocumentBody s = s := by
  refine reSub_id_of_no_match _ _ s fun t ht => ?_
  unfold matchDocBody
  rw [hasOcc_isPre _ s h t ht]
  rfl

theorem stripClassLines_id_of_no_newline (s : List Char) (h : '\n' ∉ s) :
    stripClassLines s = s := by
  refine reSub_id_of_no_match _ _ s fun t ht => ?_
  unfold matchClassLine
  by_cases hp : DOCCLASS.isPrefixOf t = true
  · rw [if_pos hp]
    have hnt : '\n' ∉ t.drop DOCCLASS.length := fun hm =>
      h (ht.subset (List.drop_subset _ t hm))
    rw [findOcc_single_none '\n' _ hnt]
    rfl
  · rw [if_neg hp]

theorem stripClassLines_id_of_no_docclass (s : List Char)
    (h : hasOcc DOCCLASS s = false) : stripClassLines s = s := by
  refine reSub_id_of_no_match _ _ s fun t ht => ?_
  unfold matchClassLine
  rw [hasOcc_isPre _ s h t ht]
  rfl

theorem stripDocMarkers_id (s : List Char) (hb : hasOcc BEGINDOC s = false)
    (he : hasOcc ENDDOC s = false) : stripDocMarkers s = s := by
  unfold stripDocMarkers
  rw [reSubLit_id _ _ s hb, reSubLit_id _ _ s he]

theorem rewriteAligned_id (s : List Char) (hb : hasOcc BEGINALIGNED s = false)
    (he : hasOcc ENDALIGNED s = false) : rewriteAligned s = s := by
  unfold rewriteAligned
  rw [reSubLit_id _ _ s hb, reSubLit_id _ _ s he]

theorem envStep_id (env : List Char) (s : List Char)
    (h : countOcc (beginMarker env) s = countOcc (endMarker env) s) :
    envStep env s = s := if_pos h

theorem balanceEnvironments_id (s : List Char)
    (h : ∀ e ∈ ENV_NAMES, countOcc (beginMarker e) s = countOcc (endMarker e) s) :
    balanceEnvironments s = s := by
  have e1 := envStep_id (S "align") s (h _ (by simp [ENV_NAMES]))
  have e2 := envStep_id (S "equation") s (h _ (by simp [ENV_NAMES]))
  have e3 := envStep_id (S "matrix") s (h _ (by simp [ENV_NAMES]))
  have e4 := envStep_id (S "bmatrix") s (h _ (by simp [ENV_NAMES]))
  have e5 := envStep_id (S "cases") s (h _ (by simp [ENV_NAMES]))
  unfold balanceEnvironments ENV_NAMES
  simp only [List.foldl]
  rw [e1, e2, e3, e4, e5]

theorem isWs_space : isWs ' ' = true := rfl

theorem wsOk_pair (c d : Char) (rest : List Char) :
    wsOk (c :: d :: rest) =
      ((!isWs c || (decide (c = ' ') && !isWs d)) && wsOk (d :: rest)) := rfl

theorem wsOk_single (c : Char) : wsOk [c] = (!isWs c || decide (c = ' ')) := rfl

theorem matchWsRun_none (c : Char) (rest : List Char) (h : isWs c = false) :
    matchWsRun (c :: rest) = none := by
  show (if isWs c = true then some ((c :: rest).takeWhile isWs).length else none) = none
  rw [h]
  simp

theorem matchWsRun_some (c : Char) (rest : List Char) (h : isWs c = true) :
    matchWsRun (c :: rest) = some ((rest.takeWhile isWs).length + 1) := by
  show (if isWs c = true then some ((c :: rest).takeWhile isWs).length else none) = _
  rw [h, if_pos rfl, List.takeWhile_cons_of_pos h]
  rfl

theorem collapseWs_nil : collapseWs [] = [] := rfl

theorem collapseWs_cons_nonws (c : Char) (rest : List Char) (h : isWs c = false) :
    collapseWs (c :: rest) = c :: collapseWs rest := by
  unfold collapseWs
  show (match matchWsRun (c :: rest) with
        | some n => [' '] ++ reSub matchWsRun [' '] rest (n - 1)
        | none => c :: reSub matchWsRun [' '] rest 0) = _
  rw [matchWsRun_none c rest h]

theorem collapseWs_cons_ws (c : Char) (rest : List Char) (h : isWs c = true) :
    collapseWs (c :: rest) = ' ' :: collapseWs (rest.dropWhile isWs) := by
  unfold collapseWs
  show (match matchWsRun (c :: rest) with
        | some n => [' '] ++ reSub matchWsRun [' '] rest (n - 1)
        | none => c :: reSub matchWsRun [' '] rest 0) = _
  rw [matchWsRun_some c rest h]
  show ' ' :: reSub matchWsRun [' '] rest ((rest.takeWhile isWs).length + 1 - 1) = _
  rw [Nat.add_sub_cancel]
  have key := reSub_skip_append matchWsRun [' '] (rest.dropWhile isWs) (rest.takeWhile isWs)
  rw [@List.takeWhile_append_dropWhile _ isWs rest] at key
  rw [key]

theorem collapseWs_nonws_append (t : List Char) :
    ∀ a : List Char, (∀ c ∈ a, isWs c = false) →
      collapseWs (a ++ t) = a ++ collapseWs t := by
  intro a
  induction a with
  | nil => intro _; rfl
  | cons c a ih =>
      intro h
      rw [List.cons_append, collapseWs_cons_nonws c _ (h c (List.mem_cons_self c a)),
        ih fun d hd => h d (List.mem_cons_of_mem c hd)]
      rfl

theorem dropWhile_head_nonws (l : List Char) :
    l.dropWhile isWs = [] ∨
      ∃ c u, l.dropWhile isWs = c :: u ∧ isWs c = false := by
  induction l with
  | nil => exact Or.inl rfl
  | cons c rest ih =>
      cases h : isWs c with
      | true => rw [List.dropWhile_cons_of_pos h]; exact ih
      | false =>
          rw [List.dropWhile_cons_of_neg (by simp [h])]
          exact Or.inr ⟨c, rest, rfl, h⟩

theorem wsOk_cons_nonws (c : Char) (l : List Char) (h : isWs c = false) :
    wsOk (c :: l) = wsOk l := by
  cases l with
  | nil => rw [wsOk_single, h]; rfl
  | cons d rest => rw [wsOk_pair, h]; rfl

theorem wsOk_tail (c : Char) (l : List Char) (h : wsOk (c :: l) = true) :
    wsOk l = true := by
  cases l with
  | nil => rfl
  | cons d rest =>
      rw [wsOk_pair] at h
      exact ((Bool.and_eq_true _ _).mp h).2

theorem wsOk_ws_head (c : Char) (l : List Char) (h : wsOk (c :: l) = true)
    (hw : isWs c = true) :
    c = ' ' ∧ (l = [] ∨ ∃ d u, l = d :: u ∧ isWs d = false) := by
  cases l with
  | nil =>
      rw [wsOk_single, hw] at h
      simp only [Bool.not_true, Bool.false_or, decide_eq_true_eq] at h
      exact ⟨h, Or.inl rfl⟩
  | cons d rest =>
      rw [wsOk_pair, hw] at h
      have h1 := ((Bool.and_eq_true _ _).mp h).1
      simp only [Bool.not_true, Bool.false_or, Bool.and_eq_true, decide_eq_true_eq,
        Bool.not_eq_true'] at h1
      exact ⟨h1.1, Or.inr ⟨d, rest, rfl, h1.2⟩⟩

theorem wsOk_append_left : ∀ a b : List Char, wsOk (a ++ b) = true → wsOk a = true := by
  intro a
  induction a with
  | nil => intro _ _; rfl
  | cons c a ih =>
      intro b h
      cases a with
      | nil =>
          cases b with
          | nil => exact h
          | cons d rest =>
              have h0 : wsOk (c :: d :: rest) = true := h
              rw [wsOk_pair] at h0
              have h1 := ((Bool.and_eq_true _ _).mp h0).1
              rw [wsOk_single]
              cases hw : isWs c with
              | false => simp
              | true =>
                  rw [hw] at h1
                  simp only [Bool.not_true, Bool.false_or, Bool.and_eq_true] at h1
                  simp [h1.1]
      | cons d a' =>
          have h0 : wsOk (c :: d :: (a' ++ b)) = true := h
          rw [wsOk_pair] at h0
          have h1 := ((Bool.and_eq_true _ _).mp h0).1
          have h2 := ((Bool.and_eq_true _ _).mp h0).2
          have h3 := ih b h2
          rw [wsOk_pair, h1, h3]
          rfl

theorem wsOk_dropWhile (l : List Char) (h : wsOk l = true) :
    wsOk (l.dropWhile isWs) = true := by
  induction l with
  | nil => exact h
  | cons c rest ih =>
      cases hw : isWs c with
      | true =>
          rw [List.dropWhile_cons_of_pos hw]
          exact ih (wsOk_tail c rest h)
      | false =>
          rw [List.dropWhile_cons_of_neg (by simp [hw])]
          exact h

theorem wsOk_collapse_aux : ∀ l : List Char,
    wsOk (collapseWs l) = true ∧ wsOk (collapseWs (l.dropWhile isWs)) = true := by
  intro l
  induction l with
  | nil => exact ⟨rfl, rfl⟩
  | cons c rest ih =>
      have main : wsOk (collapseWs (c :: rest)) = true := by
        cases hw : isWs c with
        | false =>
            rw [collapseWs_cons_nonws c rest hw, wsOk_cons_nonws c _ hw]
            exact ih.1
        | true =>
            rw [collapseWs_cons_ws c rest hw]
            rcases dropWhile_head_nonws rest with h0 | ⟨d, u, h0, hd⟩
            · rw [h0]; rfl
            · have hrec := ih.2
              rw [h0, collapseWs_cons_nonws d u hd] at hrec ⊢
              rw [wsOk_pair, hrec, isWs_space, hd]
              simp
      refine ⟨main, ?_⟩
      cases hw : isWs c with
      | true => rw [List.dropWhile_cons_of_pos hw]; exact ih.2
      | false => rw [List.dropWhile_cons_of_neg (by simp [hw])]; exact main

theorem wsOk_collapse (l : List Char) : wsOk (collapseWs l) = true :=
  (wsOk_collapse_aux l).1

theorem collapse_fix_of_wsOk : ∀ y : List Char, wsOk y = true → collapseWs y = y := by
  intro y
  induction y with
  | nil => intro _; rfl
  | cons c rest ih =>
      intro h
      cases hw : isWs c with
      | false =>
          rw [collapseWs_cons_nonws c rest hw]
          rw [wsOk_cons_nonws c rest hw] at h
          rw [ih h]
      | true =>
          obtain ⟨hsp, hshape⟩ := wsOk_ws_head c rest h hw
          subst hsp
          rw [collapseWs_cons_ws ' ' rest rfl]
          rcases hshape with h0 | ⟨d, u, h0, hd⟩
          · subst h0; rfl
          · subst h0
            rw [List.dropWhile_cons_of_neg (by simp [hd])]
            rw [ih (wsOk_tail _ _ h)]

theorem stripTrailing_cons (c : Char) (rest : List Char) :
    stripTrailing (c :: rest) =
      if (decide (stripTrailing rest = []) && isWs c) = true then []
      else c :: stripTrailing rest := rfl

theorem stripTrailing_decomp :
    ∀ s : List Char, ∃ w, s = stripTrailing s ++ w ∧ ∀ c ∈ w, isWs c = true := by
  intro s
  induction s with
  | nil => exact ⟨[], rfl, by intro c hc; cases hc⟩
  | cons c rest ih =>
      obtain ⟨w, hw, hws⟩ := ih
      by_cases hcond : (decide (stripTrailing rest = []) && isWs c) = true
      · rw [stripTrailing_cons, if_pos hcond]
        have h1 := ((Bool.and_eq_true _ _).mp hcond).1
        have h2 := ((Bool.and_eq_true _ _).mp hcond).2
        have h3 : stripTrailing rest = [] := of_decide_eq_true h1
        refine ⟨c :: w, ?_, ?_⟩
        · rw [List.nil_append]
          have : rest = w := by rw [hw, h3, List.nil_append]
          rw [← this]
        · intro d hd
          rcases List.mem_cons.mp hd with h4 | h4
          · rw [h4]; exact h2
          · exact hws d h4
      · rw [stripTrailing_cons, if_neg hcond]
        exact ⟨w, by rw [List.cons_append, ← hw], hws⟩

theorem stripTrailing_idem :
    ∀ s : List Char, stripTrailing (stripTrailing s) = stripTrailing s := by
  intro s
  induction s with
  | nil => rfl
  | cons c rest ih =>
      by_cases hcond : (decide (stripTrailing rest = []) && isWs c) = true
      · rw [stripTrailing_cons, if_pos hcond]; rfl
      · rw [stripTrailing_cons, if_neg hcond, stripTrailing_cons, ih]
        rw [if_neg hcond]

theorem stripTrailing_head (c : Char) (rest : List Char) :
    stripTrailing (c :: rest) = [] ∨ ∃ u, stripTrailing (c :: rest) = c :: u := by
  by_cases hcond : (decide (stripTrailing rest = []) && isWs c) = true
  · exact Or.inl (by rw [stripTrailing_cons, if_pos hcond])
  · exact Or.inr ⟨stripTrailing rest, by rw [stripTrailing_cons, if_neg hcond]⟩

theorem stripWs_collapse_fix (x : List Char) :
    stripWs (collapseWs (stripWs (collapseWs x))) = stripWs (collapseWs x) := by
  have hz : wsOk (collapseWs x) = true := wsOk_collapse x
  have hdw : wsOk ((collapseWs x).dropWhile isWs) = true := wsOk_dropWhile _ hz
  obtain ⟨w, hwdec, _⟩ := stripTrailing_decomp ((collapseWs x).dropWhile isWs)
  have hy : wsOk (stripWs (collapseWs x)) = true := by
    show wsOk (stripTrailing ((collapseWs x).dropWhile isWs)) = true
    exact wsOk_append_left _ w (by rw [← hwdec]; exact hdw)
  have hfix : collapseWs (stripWs (collapseWs x)) = stripWs (collapseWs x) :=
    collapse_fix_of_wsOk _ hy
  have hhead : (stripWs (collapseWs x)).dropWhile isWs = stripWs (collapseWs x) := by
    show (stripTrailing ((collapseWs x).dropWhile isWs)).dropWhile isWs
      = stripTrailing ((collapseWs x).dropWhile isWs)
    rcases dropWhile_head_nonws (collapseWs x) with h0 | ⟨c, u, h0, hc⟩
    · rw [h0]; rfl
    · rw [h0]
      rcases stripTrailing_head c u with h1 | ⟨v, h1⟩
      · rw [h1]; rfl
      · rw [h1]
        exact List.dropWhile_cons_of_neg (by simp [hc])
  show stripWs (collapseWs (stripWs (collapseWs x))) = stripWs (collapseWs x)
  rw [hfix]
  show stripTrailing ((stripWs (collapseWs x)).dropWhile isWs) = stripWs (collapseWs x)
  rw [hhead]
  show stripTrailing (stripTrailing ((collapseWs x).dropWhile isWs)) = _
  rw [stripTrailing_idem]
  rfl

theorem mem_stripTrailing (c : Char) (s : List Char) (h : c ∈ stripTrailing s) : c ∈ s := by
  obtain ⟨w, hw, _⟩ := stripTrailing_decomp s
  rw [hw]
  exact List.mem_append_left w h

theorem mem_stripWs (c : Char) (s : List Char) (h : c ∈ stripWs s) : c ∈ s := by
  have h1 : c ∈ s.dropWhile isWs := mem_stripTrailing c _ h
  exact (List.dropWhile_suffix isWs).subset h1

theorem ws_mem_collapse_aux : ∀ (l : List Char) (c : Char),
    (c ∈ collapseWs l → isWs c = true → c = ' ') ∧
      (c ∈ collapseWs (l.dropWhile isWs) → isWs c = true → c = ' ') := by
  intro l
  induction l with
  | nil => exact fun c => ⟨fun hc => absurd hc (by simp [collapseWs_nil]),
      fun hc => absurd hc (by simp [collapseWs_nil])⟩
  | cons a rest ih =>
      intro c
      have main : c ∈ collapseWs (a :: rest) → isWs c = true → c = ' ' := by
        intro hc hwc
        cases hw : isWs a with
        | false =>
            rw [collapseWs_cons_nonws a rest hw] at hc
            rcases List.mem_cons.mp hc with h1 | h1
            · subst h1; rw [hw] at hwc; cases hwc
            · exact (ih c).1 h1 hwc
        | true =>
            rw [collapseWs_cons_ws a rest hw] at hc
            rcases List.mem_cons.mp hc with h1 | h1
            · exact h1
            · exact (ih c).2 h1 hwc
      refine ⟨main, ?_⟩
      cases hw : isWs a with
      | true => rw [List.dropWhile_cons_of_pos hw]; exact (ih c).2
      | false => rw [List.dropWhile_cons_of_neg (by simp [hw])]; exact main

theorem no_newline_sanitize (s : List Char) : '\n' ∉ sanitize_latex s := by
  intro hmem
  have h1 : '\n' ∈ collapseWs (balanceEnvironments (preBalance s)) :=
    mem_stripWs _ _ hmem
  have h2 : ('\n' : Char) = ' ' :=
    (ws_mem_collapse_aux (balanceEnvironments (preBalance s)) '\n').1 h1 rfl
  cases h2

theorem reCount_cons_none (m : List Char → Option Nat) (c : Char) (rest : List Char)
    (h : m (c :: rest) = none) : reCount m (c :: rest) 0 = reCount m rest 0 := by
  show (match m (c :: rest) with
        | some n => 1 + reCount m rest (n - 1)
        | none => reCount m rest 0) = reCount m rest 0
  rw [h]

theorem reCount_cons_some (m : List Char → Option Nat) (c : Char) (rest : List Char)
    (n : Nat) (h : m (c :: rest) = some n) :
    reCount m (c :: rest) 0 = 1 + reCount m rest (n - 1) := by
  show (match m (c :: rest) with
        | some k => 1 + reCount m rest (k - 1)
        | none => reCount m rest 0) = 1 + reCount m rest (n - 1)
  rw [h]

theorem reCount_cons_skip (m : List Char → Option Nat) (c : Char) (rest : List Char)
    (k : Nat) : reCount m (c :: rest) (k + 1) = reCount m rest k := rfl

theorem matchLit_some (p l : List Char) (h : p.isPrefixOf l = true) :
    matchLit p l = some p.length := by
  unfold matchLit
  rw [h]
  rfl

theorem isPre_decomp (p l : List Char) (h : p.isPrefixOf l = true) :
    ∃ u, l = p ++ u := by
  obtain ⟨u, hu⟩ := (isPre_iff p l).mp h
  exact ⟨u, hu.symm⟩

theorem isPre_ws_head (a : Char) (pt : List Char) (ha : isWs a = false)
    (c : Char) (l : List Char) (hc : isWs c = true) :
    (a :: pt).isPrefixOf (c :: l) = false := by
  rw [isPre_cons]
  have : (a == c) = false := beq_eq_false_iff_ne.mpr fun he => by
    rw [he, hc] at ha; cases ha
  rw [this, Bool.false_and]

theorem matchLit_none_ws (p : List Char) (hp : p ≠ [])
    (hpw : ∀ c ∈ p, isWs c = false) (c : Char) (l : List Char) (hc : isWs c = true) :
    matchLit p (c :: l) = none := by
  cases p with
  | nil => exact absurd rfl hp
  | cons a pt =>
      exact matchLit_none _ _
        (isPre_ws_head a pt (hpw a (List.mem_cons_self a pt)) c l hc)

theorem count_dropWhileWs (p : List Char) (hp : p ≠ [])
    (hpw : ∀ c ∈ p, isWs c = false) :
    ∀ l : List Char, countOcc p (l.dropWhile isWs) = countOcc p l := by
  intro l
  induction l with
  | nil => rfl
  | cons c rest ih =>
      cases hw : isWs c with
      | false => rw [List.dropWhile_cons_of_neg (by simp [hw])]
      | true =>
          rw [List.dropWhile_cons_of_pos hw]
          unfold countOcc
          rw [reCount_cons_none _ c rest (matchLit_none_ws p hp hpw c rest hw)]
          exact ih

theorem isPre_nil_left (l : List Char) : List.isPrefixOf [] l = true := by
  cases l <;> rfl

theorem isPre_append_ws (w : List Char) (hw : ∀ c ∈ w, isWs c = true) :
    ∀ p : List Char, (∀ c ∈ p, isWs c = false) →
      ∀ l, p.isPrefixOf (l ++ w) = p.isPrefixOf l := by
  intro p
  induction p with
  | nil => intro _ l; rw [isPre_nil_left, isPre_nil_left]
  | cons a pt ih =>
      intro hnp l
      cases l with
      | nil =>
          rw [List.nil_append]
          cases w with
          | nil => rfl
          | cons d w' =>
              rw [isPre_ws_head a pt (hnp a (List.mem_cons_self a pt)) d w'
                (hw d (List.mem_cons_self d w'))]
              rfl
      | cons b l' =>
          rw [List.cons_append, isPre_cons, isPre_cons,
            ih (fun c hc => hnp c (List.mem_cons_of_mem a hc)) l']

theorem reCount_ws_all (p : List Char) (hp : p ≠ [])
    (hpw : ∀ c ∈ p, isWs c = false) :
    ∀ (w : List Char), (∀ c ∈ w, isWs c = true) → ∀ k, reCount (matchLit p) w k = 0 := by
  intro w
  induction w with
  | nil => intro _ k; cases k <;> rfl
  | cons c w' ih =>
      intro hws k
      cases k with
      | succ k' =>
          rw [reCount_cons_skip]
          exact ih (fun d hd => hws d (List.mem_cons_of_mem c hd)) k'
      | zero =>
          rw [reCount_cons_none _ c w'
            (matchLit_none_ws p hp hpw c w' (hws c (List.mem_cons_self c w')))]
          exact ih (fun d hd => hws d (List.mem_cons_of_mem c hd)) 0

theorem count_append_ws (p : List Char) (hp : p ≠ [])
    (hpw : ∀ c ∈ p, isWs c = false) (w : List Char) (hw : ∀ c ∈ w, isWs c = true) :
    ∀ (x : List Char) (k : Nat), reCount (matchLit p) (x ++ w) k = reCount (matchLit p) x k := by
  intro x
  induction x with
  | nil =>
      intro k
      rw [List.nil_append]
      exact reCount_ws_all p hp hpw w hw k
  | cons c x' ih =>
      intro k
      cases k with
      | succ k' => rw [List.cons_append, reCount_cons_skip, reCount_cons_skip]; exact ih k'
      | zero =>
          rw [List.cons_append]
          cases hpre : p.isPrefixOf (c :: x') with
          | true =>
              have hpre2 : p.isPrefixOf (c :: (x' ++ w)) = true := by
                rw [show c :: (x' ++ w) = (c :: x') ++ w from rfl]
                rw [isPre_append_ws w hw p hpw (c :: x')]
                exact hpre
              rw [reCount_cons_some _ _ _ _ (matchLit_some p _ hpre2),
                reCount_cons_some _ _ _ _ (matchLit_some p _ hpre),
                ih (p.length - 1)]
          | false =>
              have hpre2 : p.isPrefixOf (c :: (x' ++ w)) = false := by
                rw [show c :: (x' ++ w) = (c :: x') ++ w from rfl]
                rw [isPre_append_ws w hw p hpw (c :: x')]
                exact hpre
              rw [reCount_cons_none _ _ _ (matchLit_none _ _ hpre2),
                reCount_cons_none _ _ _ (matchLit_none _ _ hpre)]
              exact ih 0

theorem count_stripTrailing (p : List Char) (hp : p ≠ [])
    (hpw : ∀ c ∈ p, isWs c = false) (z : List Char) :
    countOcc p (stripTrailing z) = countOcc p z := by
  obtain ⟨w, hdec, hws⟩ := stripTrailing_decomp z
  conv_rhs => rw [hdec]
  exact (count_append_ws p hp hpw w hws (stripTrailing z) 0).symm

theorem isPre_collapse (l : List Char) :
    ∀ pt : List Char, (∀ c ∈ pt, isWs c = false) →
      pt.isPrefixOf (collapseWs l) = true → pt.isPrefixOf l = true := by
  induction l with
  | nil =>
      intro pt _ h
      rw [collapseWs_nil] at h
      exact h
  | cons d l' ih =>
      intro pt hpt h
      cases pt with
      | nil => rfl
      | cons a pt' =>
          cases hw : isWs d with
          | true =>
              rw [collapseWs_cons_ws d l' hw, isPre_cons] at h
              have ha := hpt a (List.mem_cons_self a pt')
              have : (a == ' ') = false := beq_eq_false_iff_ne.mpr fun he => by
                rw [he] at ha; cases ha
              rw [this, Bool.false_and] at h
              cases h
          | false =>
              rw [collapseWs_cons_nonws d l' hw, isPre_cons] at h
              rw [isPre_cons]
              have h1 := ((Bool.and_eq_true _ _).mp h).1
              have h2 := ((Bool.and_eq_true _ _).mp h).2
              rw [h1, Bool.true_and]
              exact ih pt' (fun c hc => hpt c (List.mem_cons_of_mem a hc)) h2

theorem count_collapse (p : List Char) (hp : p ≠ [])
    (hpw : ∀ c ∈ p, isWs c = false) :
    ∀ (n : Nat) (s : List Char), s.length ≤ n →
      countOcc p (collapseWs s) = countOcc p s := by
  intro n
  induction n with
  | zero =>
      intro s hs
      have hs0 : s = [] := List.length_eq_zero.mp (Nat.le_zero.mp hs)
      subst hs0
      rfl
  | succ n ih =>
      intro s hs
      cases s with
      | nil => rfl
      | cons c rest =>
          have hrest : rest.length ≤ n := by
            have := hs; simp [List.length_cons] at this; omega
          cases hw : isWs c with
          | true =>
              rw [collapseWs_cons_ws c rest hw]
              unfold countOcc
              rw [reCount_cons_none _ ' ' _ (matchLit_none_ws p hp hpw ' ' _ rfl),
                reCount_cons_none _ c rest (matchLit_none_ws p hp hpw c rest hw)]
              have hdl : (rest.dropWhile isWs).length ≤ n :=
                Nat.le_trans (List.dropWhile_sublist isWs).length_le hrest
              have h1 := ih (rest.dropWhile isWs) hdl
              unfold countOcc at h1
              rw [h1]
              have h2 := count_dropWhileWs p hp hpw rest
              unfold countOcc at h2
              exact h2
          | false =>
              rw [collapseWs_cons_nonws c rest hw]
              cases hpre : p.isPrefixOf (c :: rest) with
              | true =>
                  obtain ⟨u, hu⟩ := isPre_decomp p _ hpre
                  cases p with
                  | nil => exact absurd rfl hp
                  | cons a pt =>
                      have hac : a = c := (List.cons.inj hu).1.symm
                      have hru : rest = pt ++ u := (List.cons.inj hu).2
                      have hptw : ∀ d ∈ pt, isWs d = false :=
                        fun d hd => hpw d (List.mem_cons_of_mem a hd)
                      have hlhsform : collapseWs rest = pt ++ collapseWs u := by
                        rw [hru]; exact collapseWs_nonws_append u pt hptw
                      have hulen : u.length ≤ n := by
                        have : rest.length = pt.length + u.length := by
                          rw [hru, List.length_append]
                        omega
                      have hpre2 : (a :: pt).isPrefixOf (c :: collapseWs rest) = true := by
                        rw [hlhsform, isPre_cons]
                        have : (a == c) = true := beq_iff_eq.mpr hac
                        rw [this, Bool.true_and]
                        exact isPre_self_append pt (collapseWs u)
                      unfold countOcc
                      rw [reCount_cons_some _ _ _ _ (matchLit_some _ _ hpre2),
                        reCount_cons_some _ _ _ _ (matchLit_some _ _ hpre)]
                      have hlen : (a :: pt).length - 1 = pt.length := by
                        simp [List.length_cons]
                      rw [hlen, hlhsform, hru,
                        reCount_skip_append _ (collapseWs u) pt,
                        reCount_skip_append _ u pt]
                      have := ih u hulen
                      unfold countOcc at this
                      rw [this]
              | false =>
                  have hpre2 : p.isPrefixOf (c :: collapseWs rest) = false := by
                    cases p with
                    | nil => exact absurd rfl hp
                    | cons a pt =>
                        cases h2 : (a :: pt).isPrefixOf (c :: collapseWs rest) with
                        | false => rfl
                        | true =>
                            rw [isPre_cons] at h2
                            have h3 := ((Bool.and_eq_true _ _).mp h2).1
                            have h4 := ((Bool.and_eq_true _ _).mp h2).2
                            have h5 : pt.isPrefixOf rest = true :=
                              isPre_collapse rest pt
                                (fun d hd => hpw d (List.mem_cons_of_mem a hd)) h4
                            have : (a :: pt).isPrefixOf (c :: rest) = true := by
                              rw [isPre_cons, h3, Bool.true_and]; exact h5
                            rw [this] at hpre
                            cases hpre
                  unfold countOcc
                  rw [reCount_cons_none _ _ _ (matchLit_none _ _ hpre2),
                    reCount_cons_none _ _ _ (matchLit_none _ _ hpre)]
                  exact ih rest hrest

theorem count_sanitize_tail (p : List Char) (hp : p ≠ [])
    (hpw : ∀ c ∈ p, isWs c = false) (t : List Char) :
    countOcc p (stripWs (collapseWs t)) = countOcc p t := by
  have h1 : countOcc p (stripWs (collapseWs t))
      = countOcc p ((collapseWs t).dropWhile isWs) :=
    count_stripTrailing p hp hpw _
  rw [h1, count_dropWhileWs p hp hpw (collapseWs t)]
  exact count_collapse p hp hpw t.length t (Nat.le_refl _)

theorem reSub_cons_none (m : List Char → Option Nat) (r : List Char) (c : Char)
    (rest : List Char) (h : m (c :: rest) = none) :
    reSub m r (c :: rest) 0 = c :: reSub m r rest 0 := by
  show (match m (c :: rest) with
        | some n => r ++ reSub m r rest (n - 1)
        | none => c :: reSub m r rest 0) = _
  rw [h]

theorem BEGINDOC_cons : BEGINDOC = '\\' :: S "begin\x7bdocument\x7d" := rfl

theorem ENDDOC_cons : ENDDOC = '\\' :: S "end\x7bdocument\x7d" := rfl

theorem DOCCLASS_cons : DOCCLASS = '\\' :: S "documentclass" := rfl

theorem findOcc_at_first (hp : Char) (pt q : List Char) :
    ∀ m : List Char, hp ∉ m →
      findOcc (hp :: pt) (m ++ ((hp :: pt) ++ q)) = some m.length := by
  intro m
  induction m with
  | nil =>
      intro _
      rw [List.nil_append]
      show (if (hp :: pt).isPrefixOf ((hp :: pt) ++ q) then some 0
            else (findOcc (hp :: pt) (pt ++ q)).map (· + 1)) = some 0
      rw [isPre_self_append]
      rfl
  | cons c m' ih =>
      intro h
      have hc : (hp == c) = false :=
        beq_eq_false_iff_ne.mpr fun he => h (he ▸ List.mem_cons_self c m')
      rw [List.cons_append]
      show (if (hp :: pt).isPrefixOf (c :: (m' ++ ((hp :: pt) ++ q))) then some 0
            else (findOcc (hp :: pt) (m' ++ ((hp :: pt) ++ q))).map (· + 1))
        = some (c :: m').length
      rw [isPre_cons, hc, Bool.false_and, if_neg (by simp)]
      rw [ih fun hm => h (List.mem_cons_of_mem c hm)]
      rfl

theorem mem_collapse_aux : ∀ (l : List Char) (c : Char),
    (c ∈ collapseWs l → c ∈ l ∨ c = ' ') ∧
      (c ∈ collapseWs (l.dropWhile isWs) → c ∈ l ∨ c = ' ') := by
  intro l
  induction l with
  | nil =>
      exact fun c => ⟨fun hc => absurd hc (by simp [collapseWs_nil]),
        fun hc => absurd hc (by simp [collapseWs_nil])⟩
  | cons a rest ih =>
      intro c
      have main : c ∈ collapseWs (a :: rest) → c ∈ a :: rest ∨ c = ' ' := by
        intro hc
        cases hw : isWs a with
        | false =>
            rw [collapseWs_cons_nonws a rest hw] at hc
            rcases List.mem_cons.mp hc with h1 | h1
            · exact Or.inl (h1 ▸ List.mem_cons_self a rest)
            · rcases (ih c).1 h1 with h2 | h2
              · exact Or.inl (List.mem_cons_of_mem a h2)
              · exact Or.inr h2
        | true =>
            rw [collapseWs_cons_ws a rest hw] at hc
            rcases List.mem_cons.mp hc with h1 | h1
            · exact Or.inr h1
            · rcases (ih c).2 h1 with h2 | h2
              · exact Or.inl (List.mem_cons_of_mem a h2)
              · exact Or.inr h2
      refine ⟨main, ?_⟩
      cases hw : isWs a with
      | true =>
          rw [List.dropWhile_cons_of_pos hw]
          intro hx
          rcases (ih c).2 hx with h2 | h2
          · exact Or.inl (List.mem_cons_of_mem a h2)
          · exact Or.inr h2
      | false => rw [List.dropWhile_cons_of_neg (by simp [hw])]; exact main

theorem bsfree_sanitize_tail (t : List Char) (h : ∀ c ∈ t, c ≠ '\\') :
    ∀ c ∈ stripWs (collapseWs t), c ≠ '\\' := by
  intro c hc
  have h1 : c ∈ collapseWs t := mem_stripWs c _ hc
  rcases (mem_collapse_aux t c).1 h1 with h2 | h2
  · exact h c h2
  · rw [h2]; intro h3; cases h3

theorem preBalance_id (s : List Char) (h1 : hasOcc BEGINDOC s = false)
    (h2 : stripClassLines s = s) (h3 : hasOcc ENDDOC s = false)
    (h4 : hasOcc BEGINALIGNED s = false) (h5 : hasOcc ENDALIGNED s = false) :
    preBalance s = s := by
  unfold preBalance
  rw [stripDocumentBody_id s h1, h2, stripDocMarkers_id s h1 h3,
    rewriteAligned_id s h4 h5]

theorem sanitize_eq_ws_of_id (s : List Char) (h1 : hasOcc BEGINDOC s = false)
    (h2 : stripClassLines s = s) (h3 : hasOcc ENDDOC s = false)
    (h4 : hasOcc BEGINALIGNED s = false) (h5 : hasOcc ENDALIGNED s = false)
    (h6 : ∀ e ∈ ENV_NAMES, countOcc (beginMarker e) s = countOcc (endMarker e) s) :
    sanitize_latex s = stripWs (collapseWs s) := by
  unfold sanitize_latex
  rw [preBalance_id s h1 h2 h3 h4 h5, balanceEnvironments_id s h6]

theorem stripDocumentBody_scaffolded (d p m q : List Char)
    (hd_bs : ∀ c ∈ d, c ≠ '\\') (hp_bs : ∀ c ∈ p, c ≠ '\\')
    (hm_bs : ∀ c ∈ m, c ≠ '\\') (hq_bs : ∀ c ∈ q, c ≠ '\\') :
    stripDocumentBody (scaffolded d p m q)
      = (DOCCLASS ++ d) ++ ('\n' :: (p ++ q)) := by
  have hnone : matchDocBody (scaffolded d p m q) = none := by
    unfold matchDocBody
    rw [show BEGINDOC.isPrefixOf (scaffolded d p m q) = false from rfl]
    rfl
  have e1 : stripDocumentBody (scaffolded d p m q)
      = '\\' :: reSub matchDocBody []
          ((S "documentclass" ++ d)
            ++ ('\n' :: (p ++ (BEGINDOC ++ (m ++ (ENDDOC ++ q)))))) 0 :=
    reSub_cons_none matchDocBody [] '\\' _ hnone
  rw [e1]
  have hT : ((S "documentclass" ++ d) ++ ('\n' :: p))
        ++ (BEGINDOC ++ (m ++ (ENDDOC ++ q)))
      = (S "documentclass" ++ d)
        ++ ('\n' :: (p ++ (BEGINDOC ++ (m ++ (ENDDOC ++ q))))) := by
    rw [List.append_assoc]
    rfl
  rw [← hT]
  have hA'bs : ∀ c ∈ (S "documentclass" ++ d) ++ ('\n' :: p), c ≠ '\\' := by
    intro c hc
    simp only [List.mem_append, List.mem_cons] at hc
    rcases hc with (hc | hc) | hc | hc
    · exact (by decide : ∀ c ∈ S "documentclass", c ≠ '\\') c hc
    · exact hd_bs c hc
    · subst hc; decide
    · exact hp_bs c hc
  rw [reSub_bsfree_append matchDocBody [] anchored_matchDocBody _ _ hA'bs]
  have hx_eq : BEGINDOC ++ (m ++ (ENDDOC ++ q))
      = (BEGINDOC ++ (m ++ ENDDOC)) ++ q := by
    rw [List.append_assoc, List.append_assoc]
  have hmx : matchDocBody ((BEGINDOC ++ (m ++ ENDDOC)) ++ q)
      = some (BEGINDOC ++ (m ++ ENDDOC)).length := by
    rw [← hx_eq]
    unfold matchDocBody
    rw [isPre_self_append, if_pos rfl, List.drop_left]
    rw [ENDDOC_cons]
    rw [findOcc_at_first '\\' (S "end\x7bdocument\x7d") q m
      (fun hmem => hm_bs '\\' hmem rfl)]
    rw [← ENDDOC_cons]
    show some (BEGINDOC.length + m.length + ENDDOC.length) = _
    refine congrArg some ?_
    simp [List.length_append]
    omega
  rw [hx_eq, reSub_match_head matchDocBody [] _ q
    (by rw [BEGINDOC_cons]; exact List.cons_ne_nil _ _) hmx]
  rw [reSub_bsfree_id matchDocBody [] anchored_matchDocBody q hq_bs]
  rw [List.nil_append, List.append_assoc]
  rfl

theorem stripClassLines_scaffoldtail (d p q : List Char)
    (hd_nl : '\n' ∉ d) (hp_bs : ∀ c ∈ p, c ≠ '\\') (hq_bs : ∀ c ∈ q, c ≠ '\\') :
    stripClassLines ((DOCCLASS ++ d) ++ ('\n' :: (p ++ q))) = p ++ q := by
  have hshape : (DOCCLASS ++ d) ++ ('\n' :: (p ++ q))
      = ((DOCCLASS ++ d) ++ ['\n']) ++ (p ++ q) := by
    rw [List.append_assoc (DOCCLASS ++ d) ['\n'] (p ++ q)]
    rfl
  have hmx : matchClassLine (((DOCCLASS ++ d) ++ ['\n']) ++ (p ++ q))
      = some ((DOCCLASS ++ d) ++ ['\n']).length := by
    rw [← hshape]
    unfold matchClassLine
    have hpre : DOCCLASS.isPrefixOf ((DOCCLASS ++ d) ++ ('\n' :: (p ++ q))) = true := by
      rw [List.append_assoc]
      exact isPre_self_append DOCCLASS _
    rw [hpre, if_pos rfl]
    have hdrop : ((DOCCLASS ++ d) ++ ('\n' :: (p ++ q))).drop DOCCLASS.length
        = d ++ ('\n' :: (p ++ q)) := by
      rw [List.append_assoc]
      exact List.drop_left DOCCLASS _
    rw [hdrop]
    rw [show d ++ ('\n' :: (p ++ q)) = d ++ (['\n'] ++ (p ++ q)) from rfl]
    rw [findOcc_at_first '\n' [] (p ++ q) d hd_nl]
    refine congrArg some ?_
    simp [List.length_append]
    omega
  have hpq : ∀ c ∈ p ++ q, c ≠ '\\' := by
    intro c hc
    rcases List.mem_append.mp hc with hc | hc
    · exact hp_bs c hc
    · exact hq_bs c hc
  rw [hshape]
  unfold stripClassLines
  rw [reSub_match_head matchClassLine [] _ (p ++ q)
    (by rw [DOCCLASS_cons]; exact List.cons_ne_nil _ _) hmx]
  rw [reSub_bsfree_id matchClassLine [] anchored_matchClassLine _ hpq]
  rfl

theorem sanitize_scaffolded (d p m q : List Char)
    (hd_bs : ∀ c ∈ d, c ≠ '\\') (hd_nl : '\n' ∉ d)
    (hp_bs : ∀ c ∈ p, c ≠ '\\') (hm_bs : ∀ c ∈ m, c ≠ '\\')
    (hq_bs : ∀ c ∈ q, c ≠ '\\') :
    sanitize_latex (scaffolded d p m q) = stripWs (collapseWs (p ++ q)) := by
  have hpq : ∀ c ∈ p ++ q, c ≠ '\\' := by
    intro c hc
    rcases List.mem_append.mp hc with hc | hc
    · exact hp_bs c hc
    · exact hq_bs c hc
  have h3 : hasOcc BEGINDOC (p ++ q) = false := by
    rw [BEGINDOC_cons]; exact hasOcc_false_of_bsfree _ _ hpq
  have h4 : hasOcc ENDDOC (p ++ q) = false := by
    rw [ENDDOC_cons]; exact hasOcc_false_of_bsfree _ _ hpq
  have h5 : hasOcc DOCCLASS (p ++ q) = false := by
    rw [DOCCLASS_cons]; exact hasOcc_false_of_bsfree _ _ hpq
  have h6 : hasOcc BEGINALIGNED (p ++ q) = false := by
    rw [show BEGINALIGNED = '\\' :: (S "begin\x7b" ++ S "aligned" ++ S "\x7d") from rfl]
    exact hasOcc_false_of_bsfree _ _ hpq
  have h7 : hasOcc ENDALIGNED (p ++ q) = false := by
    rw [show ENDALIGNED = '\\' :: (S "end\x7b" ++ S "aligned" ++ S "\x7d") from rfl]
    exact hasOcc_false_of_bsfree _ _ hpq
  have hbal : ∀ e ∈ ENV_NAMES,
      countOcc (beginMarker e) (p ++ q) = countOcc (endMarker e) (p ++ q) := by
    intro e _
    rw [countOcc_zero_of_no _ _ (by
        rw [beginMarker_cons]; exact hasOcc_false_of_bsfree _ _ hpq),
      countOcc_zero_of_no _ _ (by
        rw [endMarker_cons]; exact hasOcc_false_of_bsfree _ _ hpq)]
  unfold sanitize_latex
  unfold preBalance
  rw [stripDocumentBody_scaffolded d p m q hd_bs hp_bs hm_bs hq_bs,
    stripClassLines_scaffoldtail d p q hd_nl hp_bs hq_bs,
    stripDocMarkers_id _ h3 h4, rewriteAligned_id _ h6 h7,
    balanceEnvironments_id _ hbal]

/-- Claim C1, counterexample: the balance invariant fails on the code.  On
the input backslash-begin-brace-al, backslash-begin-brace-equation-close,
ign-close, the equation kind is unbalanced, so its begin marker is removed;
the removal splices the surrounding characters into a fresh align begin
marker, and the output has one align begin marker and no align end marker. -/
theorem C1_counterexample :
    countOcc (beginMarker (S "align"))
        (sanitize_latex (S "\\begin\x7bal\\begin\x7bequation\x7dign\x7d"))
      ≠ countOcc (endMarker (S "align"))
        (sanitize_latex (S "\\begin\x7bal\\begin\x7bequation\x7dign\x7d")) := by
  decide

/-- Claim C1, amended: when every kind of the checklist already has equal
begin and end marker counts as the text enters the balancing loop, the loop
removes nothing, and the final whitespace collapse preserves marker counts,
so the output of sanitize has equal begin and end counts for each of the
five kinds.  When some count differs, all markers of that kind are removed
in one pass, but the removals can splice new, unbalanced markers, so the
balance invariant does not hold for arbitrary inputs. -/
theorem C1_amended (s : List Char)
    (h : ∀ e ∈ ENV_NAMES,
      countOcc (beginMarker e) (preBalance s) = countOcc (endMarker e) (preBalance s)) :
    ∀ e ∈ ENV_NAMES,
      countOcc (beginMarker e) (sanitize_latex s)
        = countOcc (endMarker e) (sanitize_latex s) := by
  intro e he
  have hws : (∀ c ∈ beginMarker e, isWs c = false)
      ∧ (∀ c ∈ endMarker e, isWs c = false) := by
    have he2 : e = S "align" ∨ e = S "equation" ∨ e = S "matrix"
        ∨ e = S "bmatrix" ∨ e = S "cases" := by
      simpa [ENV_NAMES] using he
    rcases he2 with he2 | he2 | he2 | he2 | he2 <;>
      (subst he2; exact ⟨by decide, by decide⟩)
  unfold sanitize_latex
  rw [balanceEnvironments_id _ h]
  rw [count_sanitize_tail (beginMarker e)
      (by rw [beginMarker_cons]; exact List.cons_ne_nil _ _) hws.1,
    count_sanitize_tail (endMarker e)
      (by rw [endMarker_cons]; exact List.cons_ne_nil _ _) hws.2]
  exact h e he

/-- Claim C1, witness: a balanced align environment stays balanced. -/
theorem C1_witness :
    countOcc (beginMarker (S "align"))
        (sanitize_latex (S "\\begin\x7balign\x7dx\\end\x7balign\x7d"))
      = countOcc (endMarker (S "align"))
        (sanitize_latex (S "\\begin\x7balign\x7dx\\end\x7balign\x7d")) :=
  C1_amended (S "\\begin\x7balign\x7dx\\end\x7balign\x7d") (by decide) (S "align") (by decide)

/-- Claim C2, code bug: the classifier is not total.  The seventh entry of
the pattern list, a double backslash followed by an opening square bracket,
is rejected by the Python regex engine as an unterminated character set, and
the lazy any() reaches it exactly when none of the first six patterns
matched.  On the empty string the function therefore raises instead of
returning false, contradicting its own docstring, which declares a bool
result. -/
theorem C2_code_bug : looks_like_latex (S "") = Except.error regexErrorMsg := rfl

/-- Claim C3, counterexample: sanitize is not idempotent.  On the input
backslash-begin-brace-docu, backslash-begin-brace-document-close,
ment-close, the first pass removes the inner document begin marker and
thereby splices a new document begin marker, which only the second pass
removes, so the second pass changes the text again. -/
theorem C3_counterexample :
    sanitize_latex (sanitize_latex (S "\\begin\x7bdocu\\begin\x7bdocument\x7dment\x7d"))
      ≠ sanitize_latex (S "\\begin\x7bdocu\\begin\x7bdocument\x7dment\x7d") := by
  decide

/-- Claim C3, amended: sanitize is idempotent on every input whose sanitized
output contains no document begin or end marker, no aligned marker, and
balanced counts for the five checklist kinds.  A second pass can only act on
markers spliced together by the removals of the first pass; when the first
output is free of them, every pass of the second run is the identity, the
collapsed and stripped whitespace being already in normal form.  The
document class pass never fires on a sanitized output because the output
contains no newline. -/
theorem C3_amended (s : List Char)
    (h1 : hasOcc BEGINDOC (sanitize_latex s) = false)
    (h2 : hasOcc ENDDOC (sanitize_latex s) = false)
    (h3 : hasOcc BEGINALIGNED (sanitize_latex s) = false)
    (h4 : hasOcc ENDALIGNED (sanitize_latex s) = false)
    (h5 : ∀ e ∈ ENV_NAMES,
      countOcc (beginMarker e) (sanitize_latex s)
        = countOcc (endMarker e) (sanitize_latex s)) :
    sanitize_latex (sanitize_latex s) = sanitize_latex s := by
  have hcls : stripClassLines (sanitize_latex s) = sanitize_latex s :=
    stripClassLines_id_of_no_newline _ (no_newline_sanitize s)
  rw [sanitize_eq_ws_of_id (sanitize_latex s) h1 hcls h2 h3 h4 h5]
  exact stripWs_collapse_fix (balanceEnvironments (preBalance s))

/-- Claim C3, witness: a second pass leaves a plain fragment unchanged. -/
theorem C3_witness : sanitize_latex (sanitize_latex (S "x")) = sanitize_latex (S "x") :=
  C3_amended (S "x") (by decide) (by decide) (by decide) (by decide) (by decide)

/-- Claim C4, counterexample: the documented example output is wrong.  On
the scaffolded one-line document the code does not return the inner dollar
fragment: the first pass deletes the whole document body, inner content
included, and the class declaration survives because no newline follows
it. -/
theorem C4_counterexample :
    sanitize_latex
        (S "\\documentclass\x7barticle\x7d\\begin\x7bdocument\x7d$x$\\end\x7bdocument\x7d")
      ≠ S "$x$" := by
  decide

/-- Claim C4, amended: sanitize applied to the scaffolded one-line document
returns the document class declaration alone.  The document body pass
removes both document markers and everything between them, including the
inner math fragment, and the class declaration is kept because the class
line pass only fires when a newline terminates the line. -/
theorem C4_amended :
    sanitize_latex
        (S "\\documentclass\x7barticle\x7d\\begin\x7bdocument\x7d$x$\\end\x7bdocument\x7d")
      = S "\\documentclass\x7barticle\x7d" := by
  decide

/-- Claim C5, code bug: the three positive examples classify as true, but
the negative examples do not return false: on hello world, on the empty
string and on the sentinel no text found, none of the six valid patterns
match, the scan reaches the seventh pattern, and the Python regex engine
rejects it as an unterminated character set, so the classifier raises
instead of returning false. -/
theorem C5_code_bug :
    looks_like_latex (S "\\frac\x7b1\x7d\x7b2\x7d") = Except.ok true
      ∧ looks_like_latex (S "$x^2$") = Except.ok true
      ∧ looks_like_latex (S "\\begin\x7balign\x7dx\\end\x7balign\x7d") = Except.ok true
      ∧ looks_like_latex (S "hello world") = Except.error regexErrorMsg
      ∧ looks_like_latex (S "") = Except.error regexErrorMsg
      ∧ looks_like_latex (S "no text found") = Except.error regexErrorMsg :=
  ⟨rfl, rfl, rfl, rfl, rfl, rfl⟩

/-- Claim C6, counterexample: a document class declaration that is not
followed by a newline survives sanitize, so the output is not free of
document directives. -/
theorem C6_counterexample :
    hasOcc DOCCLASS (sanitize_latex (S "\\documentclass\x7barticle\x7d")) = true := by
  decide

/-- Claim C6, amended: for a scaffolded document consisting of a class
declaration line terminated by a newline, lead-in text, a document body
between begin and end markers, and trailing text, where the class arguments,
the lead-in, the body and the trailer contain no backslash, sanitize removes
every document directive: the output contains no document begin marker, no
document end marker and no document class token.  In general a class
declaration without a trailing newline, or a marker spliced together by a
removal, can survive. -/
theorem C6_amended (d p m q : List Char)
    (hd_bs : ∀ c ∈ d, c ≠ '\\') (hd_nl : '\n' ∉ d)
    (hp_bs : ∀ c ∈ p, c ≠ '\\') (hm_bs : ∀ c ∈ m, c ≠ '\\')
    (hq_bs : ∀ c ∈ q, c ≠ '\\') :
    hasOcc BEGINDOC (sanitize_latex (scaffolded d p m q)) = false
      ∧ hasOcc ENDDOC (sanitize_latex (scaffolded d p m q)) = false
      ∧ hasOcc DOCCLASS (sanitize_latex (scaffolded d p m q)) = false := by
  rw [sanitize_scaffolded d p m q hd_bs hd_nl hp_bs hm_bs hq_bs]
  have hpq : ∀ c ∈ p ++ q, c ≠ '\\' := by
    intro c hc
    rcases List.mem_append.mp hc with hc | hc
    · exact hp_bs c hc
    · exact hq_bs c hc
  have hbs := bsfree_sanitize_tail (p ++ q) hpq
  refine ⟨?_, ?_, ?_⟩
  · rw [BEGINDOC_cons]; exact hasOcc_false_of_bsfree _ _ hbs
  · rw [ENDDOC_cons]; exact hasOcc_false_of_bsfree _ _ hbs
  · rw [DOCCLASS_cons]; exact hasOcc_false_of_bsfree _ _ hbs

/-- Claim C6, witness: a concrete scaffolded document is fully stripped. -/
theorem C6_witness :
    hasOcc BEGINDOC (sanitize_latex (scaffolded (S "\x7barticle\x7d") (S " ") (S "$x$") [])) = false
      ∧ hasOcc ENDDOC (sanitize_latex (scaffolded (S "\x7barticle\x7d") (S " ") (S "$x$") [])) = false
      ∧ hasOcc DOCCLASS (sanitize_latex (scaffolded (S "\x7barticle\x7d") (S " ") (S "$x$") [])) = false :=
  C6_amended (S "\x7barticle\x7d") (S " ") (S "$x$") []
    (by decide) (by decide) (by decide) (by decide) (by decide)

/-- Claim C7: the wrapper leaves a fragment that already starts with a
math-mode opener unchanged and otherwise surrounds it with a single pair of
inline math dollars, and it embeds the result in the fixed constant
preamble, which ends with a document begin marker, followed by the constant
suffix, which holds the document end marker. -/
theorem C7_wrapper (f : List Char) :
    (startsWithOpener f = false →
        renderDocument f = texPreamble ++ (S "$" ++ f ++ S "$") ++ texSuffix)
      ∧ (startsWithOpener f = true → renderDocument f = texPreamble ++ f ++ texSuffix)
      ∧ hasOcc BEGINDOC texPreamble = true ∧ hasOcc ENDDOC texSuffix = true := by
  refine ⟨?_, ?_, by decide, by decide⟩
  · intro h
    unfold renderDocument wrapFragment
    rw [h]
    simp
  · intro h
    unfold renderDocument wrapFragment
    rw [h]
    simp

/-- Claim C7, witness: a bare fragment gets wrapped in dollars. -/
theorem C7_witness :
    renderDocument (S "x^2") = texPreamble ++ (S "$" ++ S "x^2" ++ S "$") ++ texSuffix :=
  (C7_wrapper (S "x^2")).1 (by decide)

/-- Claim C8, counterexample: when flameshot fails, the temporary file that
opening the stdout redirection already created stays on disk, because main
exits before the try block whose finally clause would delete it.  This run
ends with an orphaned zero-byte screenshot file. -/
theorem C8_counterexample : (mainRun envC8bad).screenshotOnDisk = true := rfl

/-- Claim C8, amended: whenever capture succeeds, meaning capture_screen
returns a path to a nonempty screenshot, the file is deleted on every
subsequent path, success, partial failure or abort, because the whole rest
of main runs inside a try block whose finally clause unlinks it.  Only the
capture-failure paths can leave an orphaned temporary file. -/
theorem C8_amended (env : AppEnv) (h : captureReturnsPath env.capture = true) :
    (mainRun env).screenshotOnDisk = false := by
  unfold mainRun
  by_cases h1 : env.apiKeySet = false
  · rw [if_pos h1]
  · rw [if_neg h1, h, if_neg (by simp)]
    by_cases h2 : (env.ocrText = [] || env.ocrText = NOTEXT) = true
    · rw [if_pos h2]
    · rw [if_neg h2]
      cases looks_like_latex env.ocrText with
      | error e => rfl
      | ok b => cases b <;> rfl

/-- Claim C8, witness: a fully successful run deletes the screenshot. -/
theorem C8_witness : (mainRun envC8good).screenshotOnDisk = false :=
  C8_amended envC8good rfl

/-- Claim C9: a rendering failure does not abort the viewer run.  When the
captured text is nonempty, not the sentinel, and classified as notation, and
the external renderer returns nothing, the run still invokes the clipboard
copy with the original extracted text, and it terminates normally unless the
clipboard call itself raises an unexpected error. -/
theorem C9_render_failure (env : MmEnv) (h1 : env.apiKeySet = true)
    (h2 : env.captureOk = true) (h3 : env.ocrText ≠ []) (h4 : env.ocrText ≠ NOTEXT)
    (h5 : looks_like_latex env.ocrText = Except.ok true)
    (h6 : env.renderResult = none) :
    MmEvent.clipboardCopy env.ocrText ∈ (mmMainRun env).events
      ∧ (env.xclipOutcome ≠ SinkOutcome.otherError → (mmMainRun env).crashed = false) := by
  have hlp : mmLatexPart env = ([MmEvent.renderAttempt env.ocrText], false) := by
    unfold mmLatexPart
    rw [if_neg (by simp [h3, h4]), h5, h6]
  have hcp1 : (mmCopyPart env).1 = [MmEvent.clipboardCopy env.ocrText] := by
    unfold mmCopyPart
    rw [if_neg (by simp [h3, h4])]
    by_cases hx : env.xclipOutcome = SinkOutcome.otherError
    · rw [if_pos hx]
    · rw [if_neg hx]
  have hrun : mmMainRun env =
      { events := (mmLatexPart env).1 ++ (mmCopyPart env).1 ++ [MmEvent.fileUnlink],
        crashed := (mmCopyPart env).2 } := by
    unfold mmMainRun
    rw [if_neg (by simp [h1]), if_neg (by simp [h2]), if_neg (by rw [hlp]; simp)]
  constructor
  · rw [hrun]
    simp [hcp1]
  · intro hne
    rw [hrun]
    show (mmCopyPart env).2 = false
    unfold mmCopyPart
    rw [if_neg (by simp [h3, h4]), if_neg hne]

/-- Claim C9, witness: a concrete run with a failed render still copies. -/
theorem C9_witness :
    MmEvent.clipboardCopy (S "$x$") ∈ (mmMainRun envC9).events
      ∧ (envC9.xclipOutcome ≠ SinkOutcome.otherError → (mmMainRun envC9).crashed = false) :=
  C9_render_failure envC9 rfl rfl (by decide) (by decide) rfl rfl

/-- Claim C10, counterexample: an environment kind outside the checklist is
not left untouched.  A pmatrix begin marker with no matching end marker sits
inside a document body; the document pass deletes the whole body, so the
output is empty and the pmatrix marker is gone, although pmatrix is never
count-checked. -/
theorem C10_counterexample :
    sanitize_latex
        (S "\\begin\x7bdocument\x7d\\begin\x7bpmatrix\x7d\\end\x7bdocument\x7d") = [] := by
  decide

/-- Claim C10, amended: the sanitizer count-checks and strips only the five
checklist kinds, but other passes can still destroy or splice foreign
markers.  For every input free of document begin and end markers, of a
document class token and of aligned markers, and balanced in the five
checklist kinds, every pass except the whitespace collapse is the identity,
and the collapse preserves marker counts, so the begin and end marker counts
of every whitespace-free environment kind are left unchanged by sanitize. -/
theorem C10_amended (s env : List Char)
    (h1 : hasOcc BEGINDOC s = false) (h2 : hasOcc ENDDOC s = false)
    (h3 : hasOcc DOCCLASS s = false) (h4 : hasOcc BEGINALIGNED s = false)
    (h5 : hasOcc ENDALIGNED s = false)
    (h6 : ∀ e ∈ ENV_NAMES, countOcc (beginMarker e) s = countOcc (endMarker e) s)
    (h7 : ∀ c ∈ env, isWs c = false) :
    countOcc (beginMarker env) (sanitize_latex s) = countOcc (beginMarker env) s
      ∧ countOcc (endMarker env) (sanitize_latex s) = countOcc (endMarker env) s := by
  rw [sanitize_eq_ws_of_id s h1 (stripClassLines_id_of_no_docclass s h3) h2 h4 h5 h6]
  have hbm_ws : ∀ c ∈ beginMarker env, isWs c = false := by
    intro c hc
    rw [beginMarker_cons] at hc
    rcases List.mem_cons.mp hc with h | h
    · subst h; decide
    · simp only [List.mem_append] at h
      rcases h with (h | h) | h
      · exact (by decide : ∀ c ∈ S "begin\x7b", isWs c = false) c h
      · exact h7 c h
      · exact (by decide : ∀ c ∈ S "\x7d", isWs c = false) c h
  have hem_ws : ∀ c ∈ endMarker env, isWs c = false := by
    intro c hc
    rw [endMarker_cons] at hc
    rcases List.mem_cons.mp hc with h | h
    · subst h; decide
    · simp only [List.mem_append] at h
      rcases h with (h | h) | h
      · exact (by decide : ∀ c ∈ S "end\x7b", isWs c = false) c h
      · exact h7 c h
      · exact (by decide : ∀ c ∈ S "\x7d", isWs c = false) c h
  exact ⟨count_sanitize_tail _ (by rw [beginMarker_cons]; exact List.cons_ne_nil _ _) hbm_ws s,
    count_sanitize_tail _ (by rw [endMarker_cons]; exact List.cons_ne_nil _ _) hem_ws s⟩

/-- Claim C10, witness: an unbalanced pmatrix marker outside document
scaffolding survives sanitize with its count intact. -/
theorem C10_witness :
    countOcc (beginMarker (S "pmatrix")) (sanitize_latex (S "$x$ \\begin\x7bpmatrix\x7d"))
        = countOcc (beginMarker (S "pmatrix")) (S "$x$ \\begin\x7bpmatrix\x7d")
      ∧ countOcc (endMarker (S "pmatrix")) (sanitize_latex (S "$x$ \\begin\x7bpmatrix\x7d"))
        = countOcc (endMarker (S "pmatrix")) (S "$x$ \\begin\x7bpmatrix\x7d") :=
  C10_amended (S "$x$ \\begin\x7bpmatrix\x7d") (S "pmatrix")
    (by decide) (by decide) (by decide) (by decide) (by decide) (by decide) (by decide)

